import Mathlib

/-!
Verification development for the sims_maf slicing/metric-execution engine.

Shallow embedding of the Python sources:
* `python/lsst/sims/maf/slicers/oneDSlicer.py` (`OneDSlicer.setupSlicer`, `__eq__`)
* `python/lsst/sims/maf/slicers/baseSlicer.py` (`SlicerRegistry`, `BaseSlicer._sliceSimData`,
  `writeData`, `readData`)
* `python/lsst/sims/operations/maf/binners/baseBinner.py`
  (`BaseBinner.sliceSimData`, `writeMetricDataGeneric`, `readMetricDataGeneric`)
* `python/lsst/sims/operations/maf/binners/baseSpatialBinner.py`
  (`BaseSpatialBinner._buildTree`, `sliceSimData`)
* `python/lsst/sims/operations/maf/gridMetrics/baseGridMetric.py` (`BaseGridMetric.runGrid`)
* `python/lsst/sims/operations/maf/driver/mafDriver.py` (`MafDriver.__init__`, `run`)

Floating-point column values are modelled as exact rationals (the claims under
study are order/equality comparisons, which agree with IEEE semantics on the
concrete inputs used); machine integers do not overflow in the modelled code.
-/

namespace SimsMaf

/-! ## Spatial binner: `BaseSpatialBinner._buildTree` / `sliceSimData`
(`lsst/sims/operations/maf/binners/baseSpatialBinner.py`)

The scipy k-d tree is an external collaborator; the tree is modelled as the
list of accepted (ra, dec) pairs and the `query_ball_point` call as an
abstract query function over that list.  The source marks the "no data" case
by storing the empty list `[]` in `self.opsimtree` instead of a tree. -/

/-- The constant `np.pi * 2.0` of `_buildTree`, as the exact rational value of
the IEEE-754 double: `float64(pi) = 884279719003555 / 2^48`, and the
multiplication by `2.0` is exact. -/
def twoPiFloat : ℚ := 884279719003555 / 2 ^ 47

/-- State left by `_buildTree`: the list of (ra, dec) points handed to the
k-d tree, or `[]` when there was no data (`opsimtree = []` in the source). -/
abbrev OpsimTree := List (ℚ × ℚ)

/-- `BaseSpatialBinner._buildTree`: raises when any RA or Dec value exceeds
`np.pi*2.0`, otherwise builds the tree over the zipped points (storing `[]`
when there are zero input rows). -/
def buildTree (simDataRa simDataDec : List ℚ) : Except String OpsimTree :=
  if simDataRa.any (fun ra => twoPiFloat < ra) ∨
     simDataDec.any (fun dec => twoPiFloat < dec) then
    Except.error "Expecting RA and Dec values to be in radians."
  else
    Except.ok (simDataRa.zip simDataDec)

/-- `BaseSpatialBinner.sliceSimData`: when the stored tree is `[]` (zero input
rows) return `[]` without querying; otherwise delegate to the external
`query_ball_point` collaborator `query`. -/
def spatialSliceSimData (query : OpsimTree → ℚ × ℚ → List ℕ)
    (tree : OpsimTree) (binpoint : ℚ × ℚ) : List ℕ :=
  if tree = [] then [] else query tree binpoint

/-! ## Slicer class registry (`SlicerRegistry` in `baseSlicer.py`) -/

/-- Registry entries: registry name to (an identifier for) the class object. -/
abbrev SlicerReg := List (String × ℕ)

/-- The registry key built by `SlicerRegistry.__init__`: the module name (with
a trailing dot) is dropped for classes inside `lsst.sims.maf.slicers`,
otherwise it prefixes the class name. -/
def slicerRegistryKey (modname clsname : String) : String :=
  (if ("lsst.sims.maf.slicers").toList.isPrefixOf (modname ++ ".").toList then ""
   else modname ++ ".") ++ clsname

/-- `SlicerRegistry.__init__` (run once at class-definition time): raise if the
key is already registered, and enter the class unless the key is one of the
abstract base names `BaseSlicer` / `BaseSpatialSlicer`. -/
def registerSlicer (reg : SlicerReg) (modname clsname : String) (cls : ℕ) :
    Except String SlicerReg :=
  let key := slicerRegistryKey modname clsname
  if key ∈ reg.map Prod.fst then
    Except.error ("Redefining metric " ++ key ++ "! (there are >1 slicers with the same name)")
  else if key = "BaseSlicer" ∨ key = "BaseSpatialSlicer" then
    Except.ok reg
  else
    Except.ok (reg ++ [(key, cls)])

/-- A sequence of class definitions processed against the (initially empty)
shared registry. -/
def registerAll (defs : List (String × String × ℕ)) : Except String SlicerReg :=
  defs.foldlM (fun reg d => registerSlicer reg d.1 d.2.1 d.2.2) []

/-- Invariant carried by every registry the metaclass can produce. -/
def RegInvariant (reg : SlicerReg) : Prop :=
  (reg.map Prod.fst).Nodup ∧
  "BaseSlicer" ∉ reg.map Prod.fst ∧ "BaseSpatialSlicer" ∉ reg.map Prod.fst

lemma registerSlicer_invariant {reg reg' : SlicerReg} {m c : String} {i : ℕ}
    (h : RegInvariant reg) (hstep : registerSlicer reg m c i = Except.ok reg') :
    RegInvariant reg' := by
  unfold registerSlicer at hstep
  by_cases hmem : slicerRegistryKey m c ∈ reg.map Prod.fst
  · simp [hmem] at hstep
  · by_cases hbase : slicerRegistryKey m c = "BaseSlicer" ∨
        slicerRegistryKey m c = "BaseSpatialSlicer"
    · simp [hmem, hbase] at hstep
      exact hstep ▸ h
    · simp [hmem, hbase] at hstep
      obtain ⟨hnd, hb1, hb2⟩ := h
      subst hstep
      push_neg at hbase
      refine ⟨?_, ?_, ?_⟩
      · simpa [List.nodup_append, hmem] using hnd
      · simp only [List.map_append, List.mem_append]
        rintro (h1 | h1)
        · exact hb1 h1
        · simp at h1
          exact hbase.1 h1.symm
      · simp only [List.map_append, List.mem_append]
        rintro (h1 | h1)
        · exact hb2 h1
        · simp at h1
          exact hbase.2 h1.symm

lemma registerAll_invariant_aux (defs : List (String × String × ℕ)) :
    ∀ (reg reg' : SlicerReg), RegInvariant reg →
      defs.foldlM (fun r d => registerSlicer r d.1 d.2.1 d.2.2) reg = Except.ok reg' →
      RegInvariant reg' := by
  induction defs with
  | nil =>
      intro reg reg' h hfold
      simp only [List.foldlM_nil, pure, Except.pure, Except.ok.injEq] at hfold
      exact hfold ▸ h
  | cons d rest ih =>
      intro reg reg' h hfold
      simp only [List.foldlM_cons] at hfold
      cases hstep : registerSlicer reg d.1 d.2.1 d.2.2 with
      | error e => rw [hstep] at hfold; simp [Bind.bind, Except.bind] at hfold
      | ok mid =>
          rw [hstep] at hfold
          simp only [Bind.bind, Except.bind] at hfold
          exact ih mid reg' (registerSlicer_invariant h hstep) hfold

/-! ## Claim theorems: C7, C8, C9 -/

/-- C7: building the spatial index over zero input rows succeeds (it does not
raise) and leaves the index empty, and every subsequent radius query against
that empty index returns an empty list of row indices rather than raising. -/
theorem buildTree_zero_rows_ok_queries_empty :
    buildTree [] [] = Except.ok ([] : OpsimTree) ∧
    ∀ (query : OpsimTree → ℚ × ℚ → List ℕ) (binpoint : ℚ × ℚ),
      spatialSliceSimData query [] binpoint = [] := by
  constructor
  · rfl
  · intro query binpoint
    simp [spatialSliceSimData]

/-- C8 counterexample: a declination of 3 (an invalid radian latitude, e.g. 3
degrees passed by mistake: `pi/2 < 3`) does not exceed `2*pi`, so `_buildTree`
accepts it instead of raising the configuration error the claim requires. -/
theorem buildTree_accepts_invalid_radians :
    buildTree [1] [3] = Except.ok [((1 : ℚ), (3 : ℚ))] ∧ Real.pi / 2 < 3 := by
  constructor
  · have h1 : ¬ (twoPiFloat < (1 : ℚ)) := by norm_num [twoPiFloat]
    have h3 : ¬ (twoPiFloat < (3 : ℚ)) := by norm_num [twoPiFloat]
    simp [buildTree, h1, h3, List.zip]
  · have := Real.pi_lt_d2
    linarith

/-- C8 amended: `_buildTree` raises the radians configuration error exactly
when some longitude or latitude value exceeds the float `2*np.pi`; values that
are outside the valid radian range but no larger than `2*pi` (e.g. small
degree-valued inputs, or latitudes above `pi/2`) are silently accepted. -/
theorem buildTree_error_iff_exceeds_twoPi (ras decs : List ℚ) :
    (∃ e, buildTree ras decs = Except.error e) ↔
      ((∃ ra ∈ ras, twoPiFloat < ra) ∨ (∃ dec ∈ decs, twoPiFloat < dec)) := by
  unfold buildTree
  by_cases h : ras.any (fun ra => twoPiFloat < ra) ∨ decs.any (fun dec => twoPiFloat < dec)
  · simp only [h, if_true]
    constructor
    · intro _
      simpa [List.any_eq_true] using h
    · intro _
      exact ⟨_, rfl⟩
  · simp only [h, if_false]
    constructor
    · rintro ⟨e, he⟩
      cases he
    · intro hx
      exact absurd (by simpa [List.any_eq_true] using hx) h

/-- C9: the shared slicer registry maps every registered name to exactly one
class (no duplicate keys after any successful sequence of class definitions
starting from the empty registry), a class definition whose registry name is
already registered raises at class-definition time, and the abstract base
names `BaseSlicer` / `BaseSpatialSlicer` are never entered. -/
theorem slicerRegistry_unique_bases_excluded :
    (∀ (defs : List (String × String × ℕ)) (reg : SlicerReg),
        registerAll defs = Except.ok reg →
        (reg.map Prod.fst).Nodup ∧
          "BaseSlicer" ∉ reg.map Prod.fst ∧
          "BaseSpatialSlicer" ∉ reg.map Prod.fst) ∧
    (∀ (reg : SlicerReg) (m c : String) (i : ℕ),
        slicerRegistryKey m c ∈ reg.map Prod.fst →
        ∃ e, registerSlicer reg m c i = Except.error e) := by
  constructor
  · intro defs reg hfold
    exact registerAll_invariant_aux defs [] reg ⟨List.nodup_nil, by simp, by simp⟩ hfold
  · intro reg m c i hmem
    refine ⟨"Redefining metric " ++ slicerRegistryKey m c ++
      "! (there are >1 slicers with the same name)", ?_⟩
    simp [registerSlicer, hmem]

/-- Witness for C9 at a concrete class-definition sequence: defining
`BaseSlicer`, then `OneDSlicer`, leaves a registry containing only
`OneDSlicer`; redefining a class named `OneDSlicer` then raises. -/
theorem slicerRegistry_unique_bases_excluded_witness :
    ((([("OneDSlicer", 1)] : SlicerReg)).map Prod.fst).Nodup ∧
      "BaseSlicer" ∉ ([("OneDSlicer", 1)] : SlicerReg).map Prod.fst ∧
      "BaseSpatialSlicer" ∉ ([("OneDSlicer", 1)] : SlicerReg).map Prod.fst ∧
      ∃ e, registerSlicer [("OneDSlicer", 1)]
          "lsst.sims.maf.slicers.oneDSlicer" "OneDSlicer" 2 = Except.error e := by
  have h := slicerRegistry_unique_bases_excluded
  have h1 := h.1 [("lsst.sims.maf.slicers.baseSlicer", "BaseSlicer", 0),
                  ("lsst.sims.maf.slicers.oneDSlicer", "OneDSlicer", 1)]
      [("OneDSlicer", 1)] rfl
  have h2 := h.2 [("OneDSlicer", 1)] "lsst.sims.maf.slicers.oneDSlicer" "OneDSlicer" 2
      (by decide)
  exact ⟨h1.1, h1.2.1, h1.2.2, h2⟩

/-! ## Slicing before setup (`BaseSlicer._sliceSimData`, `BaseBinner.sliceSimData`)

`BaseSlicer._sliceSimData` raises `NotImplementedError` until `setupSlicer`
replaces it (via `setattr`) with a closure; the dispatch state is modelled as
an optional slicing function, `none` on a freshly constructed instance. -/

/-- The `_sliceSimData` slot of a slicer instance: `none` until `setupSlicer`
installs a closure. -/
structure SlicerDispatch where
  sliceFn : Option (ℕ → List ℕ)

/-- A freshly constructed slicer, before any `setupSlicer` call. -/
def freshSlicer : SlicerDispatch := { sliceFn := none }

/-- Calling `_sliceSimData`: raises `NotImplementedError` when no slicing
closure has been installed, otherwise runs the installed closure. -/
def sliceSimDataCall (s : SlicerDispatch) (islice : ℕ) : Except String (List ℕ) :=
  match s.sliceFn with
  | none => Except.error "This method is set up by setupSlicer - run that first."
  | some f => Except.ok (f islice)

/-- `BaseBinner.sliceSimData` (the operations-layer base class): always raises
`NotImplementedError`; concrete binners override it. -/
def binnerBaseSliceSimData (binpoint : ℚ) : Except String (List ℕ) :=
  Except.error "NotImplementedError"

/-! ## `BaseGridMetric.runGrid` (per-point metric evaluation with masking) -/

section RunGrid

variable {α : Type} [Inhabited α]

/-- The per-gridpoint loop of `BaseGridMetric.runGrid` for one metric: slice
the data at each gridpoint, store `badval` when the slice is empty, otherwise
store the result of the metric `run` function on the selected rows. -/
def runGridValues (resolve : ℕ → List ℕ) (npoints : ℕ) (run : List α → ℚ)
    (badval : ℚ) (simData : List α) : List ℚ :=
  (List.range npoints).map (fun i =>
    let idxs := resolve i
    if idxs.length = 0 then badval
    else run (idxs.map (fun j => simData.getD j default)))

/-- The row subsets on which `runGrid` actually invokes `metric.run` (the
`else` branch of the empty-slice test). -/
def runGridCalls (resolve : ℕ → List ℕ) (npoints : ℕ) (simData : List α) :
    List (List α) :=
  (List.range npoints).filterMap (fun i =>
    let idxs := resolve i
    if idxs.length = 0 then none
    else some (idxs.map (fun j => simData.getD j default)))

end RunGrid

/-! ## Generic metric-data persistence (`BaseBinner.writeMetricDataGeneric`
and `readMetricDataGeneric`, non-object-dtype branch) -/

/-- `writeMetricDataGeneric` (non-object dtype): fill masked entries with
`int_badval` for integer dtypes, else `badval`, and write only the filled
values (the mask itself is not stored). -/
def writeMetricDataGeneric (metricValues : List ℚ) (mask : List Bool)
    (badval intBadval : ℚ) (isIntDtype : Bool) : List ℚ :=
  let useBadval := if isIntDtype then intBadval else badval
  List.zipWith (fun m v => if m then useBadval else v) mask metricValues

/-- `readMetricDataGeneric` (non-object dtype): return the stored values and a
mask reconstructed by comparing each stored value against `badval` and
`int_badval`. -/
def readMetricDataGeneric (stored : List ℚ) (badval intBadval : ℚ) :
    List ℚ × List Bool :=
  (stored, stored.map (fun v => decide (v = badval) || decide (v = intBadval)))

/-! ## Claim theorems: C5, C6, C10 -/

/-- C6: invoking the per-point data-slicing operation on a freshly constructed
slicer (before `setupSlicer`) raises, and in particular never silently returns
an empty row set; the operations-layer base binner likewise raises. -/
theorem sliceSimData_before_setup_raises :
    (∀ islice : ℕ,
      sliceSimDataCall freshSlicer islice =
        Except.error "This method is set up by setupSlicer - run that first." ∧
      sliceSimDataCall freshSlicer islice ≠ Except.ok []) ∧
    (∀ binpoint : ℚ, binnerBaseSliceSimData binpoint =
        Except.error "NotImplementedError" ∧
      binnerBaseSliceSimData binpoint ≠ Except.ok []) := by
  constructor
  · intro islice
    exact ⟨rfl, fun h => by cases h⟩
  · intro binpoint
    exact ⟨rfl, fun h => by cases h⟩

/-- C5: for every gridpoint whose resolved row-index set is empty, `runGrid`
writes the bad value into that point of the result array, and the metric `run`
function is only ever invoked on non-empty row subsets (every subset in the
invocation trace is non-empty, and non-empty points get the metric result). -/
theorem runGrid_masks_empty_points {α : Type} [Inhabited α]
    (resolve : ℕ → List ℕ) (npoints : ℕ) (run : List α → ℚ) (badval : ℚ)
    (simData : List α) :
    (∀ i : ℕ, i < npoints → resolve i = [] →
        (runGridValues resolve npoints run badval simData).getD i 0 = badval) ∧
    (∀ i : ℕ, i < npoints → resolve i ≠ [] →
        (runGridValues resolve npoints run badval simData).getD i 0 =
          run ((resolve i).map (fun j => simData.getD j default))) ∧
    (∀ sub ∈ runGridCalls resolve npoints simData, sub ≠ []) := by
  have hlen : (runGridValues resolve npoints run badval simData).length = npoints := by
    simp [runGridValues]
  refine ⟨?_, ?_, ?_⟩
  · intro i hi hempty
    rw [List.getD_eq_getElem _ _ (by rw [hlen]; exact hi)]
    simp [runGridValues, hempty]
  · intro i hi hne
    rw [List.getD_eq_getElem _ _ (by rw [hlen]; exact hi)]
    simp [runGridValues, List.length_eq_zero, hne]
  · intro sub hsub
    simp only [runGridCalls, List.mem_filterMap, List.mem_range] at hsub
    obtain ⟨i, _, heq⟩ := hsub
    by_cases hempty : (resolve i).length = 0
    · simp [hempty] at heq
    · simp only [hempty, if_false, Option.some.injEq] at heq
      subst heq
      simp [List.length_eq_zero] at hempty
      simp [hempty]

/-- Witness for C5: a two-point grid where point 0 resolves to no rows and
point 1 resolves to one row; point 0 holds the bad value, point 1 the metric
result, and the single logged invocation is on a non-empty subset. -/
theorem runGrid_masks_empty_points_witness :
    (runGridValues (fun i => if i = 0 then [] else [0]) 2
        (fun l : List ℚ => (l.length : ℚ)) (-666) [(7 : ℚ)]).getD 0 0 = -666 ∧
    (runGridValues (fun i => if i = 0 then [] else [0]) 2
        (fun l : List ℚ => (l.length : ℚ)) (-666) [(7 : ℚ)]).getD 1 0 =
      (fun l : List ℚ => (l.length : ℚ)) ([0].map (fun j => [(7 : ℚ)].getD j default)) ∧
    ∀ sub ∈ runGridCalls (α := ℚ) (fun i => if i = 0 then [] else [0]) 2 [(7 : ℚ)],
      sub ≠ [] := by
  have h := runGrid_masks_empty_points (α := ℚ) (fun i => if i = 0 then [] else [0]) 2
      (fun l : List ℚ => (l.length : ℚ)) (-666) [(7 : ℚ)]
  exact ⟨h.1 0 (by decide) (by decide), h.2.1 1 (by decide) (by decide), h.2.2⟩

/-- C10: after the generic write/read round trip the mask is reconstructed
purely by value comparison (an entry is masked iff its stored value equals the
bad value or the integer bad value), so a genuine unmasked value equal to the
bad value comes back masked and the round trip is not faithful for it. -/
theorem readMetricDataGeneric_mask_by_value (metricValues : List ℚ)
    (mask : List Bool) (badval intBadval : ℚ) (isIntDtype : Bool)
    (hlen : mask.length = metricValues.length) :
    (∀ i : ℕ,
        i < (writeMetricDataGeneric metricValues mask badval intBadval isIntDtype).length →
        (readMetricDataGeneric
            (writeMetricDataGeneric metricValues mask badval intBadval isIntDtype)
            badval intBadval).2.getD i false =
          (decide ((writeMetricDataGeneric metricValues mask badval intBadval
              isIntDtype).getD i 0 = badval) ||
           decide ((writeMetricDataGeneric metricValues mask badval intBadval
              isIntDtype).getD i 0 = intBadval))) ∧
    (∀ i : ℕ, i < metricValues.length → mask.getD i false = false →
        metricValues.getD i 0 = badval →
        (readMetricDataGeneric
            (writeMetricDataGeneric metricValues mask badval intBadval isIntDtype)
            badval intBadval).2.getD i false = true) := by
  have hwlen : (writeMetricDataGeneric metricValues mask badval intBadval
      isIntDtype).length = metricValues.length := by
    simp [writeMetricDataGeneric, hlen]
  constructor
  · intro i hi
    simp only [readMetricDataGeneric]
    rw [List.getD_eq_getElem _ _ (by simpa using hi),
        List.getD_eq_getElem _ _ hi, List.getElem_map]
  · intro i hi hunmasked hval
    have hi' : i < (writeMetricDataGeneric metricValues mask badval intBadval
        isIntDtype).length := by rw [hwlen]; exact hi
    have hstored : (writeMetricDataGeneric metricValues mask badval intBadval
        isIntDtype).getD i 0 = badval := by
      rw [List.getD_eq_getElem _ _ hi']
      simp only [writeMetricDataGeneric, List.getElem_zipWith]
      rw [List.getD_eq_getElem _ _ hi] at hval
      rw [List.getD_eq_getElem _ _ (by rw [hlen]; exact hi)] at hunmasked
      simp [hunmasked, hval]
    simp only [readMetricDataGeneric]
    rw [List.getD_eq_getElem _ _ (by simpa using hi'), List.getElem_map,
        ← List.getD_eq_getElem _ _ hi', hstored]
    simp

/-- Witness for C10: values `[1, -666, 3]` with only the last entry masked,
bad value `-666`; entry 1 was a genuine unmasked `-666` and comes back
masked after the round trip. -/
theorem readMetricDataGeneric_mask_by_value_witness :
    (readMetricDataGeneric
        (writeMetricDataGeneric [1, -666, 3] [false, false, true] (-666) (-666) false)
        (-666) (-666)).2.getD 1 false = true := by
  exact (readMetricDataGeneric_mask_by_value [1, -666, 3] [false, false, true]
      (-666) (-666) false (by decide)).2 1 (by decide) (by decide) (by decide)

/-! ## `MafDriver` (`lsst/sims/operations/maf/driver/mafDriver.py`)

A configured binner carries its SQL-constraint strings, the columns the binner
itself needs, the columns of its stackers, and one declared column list per
metric riding on it (`self.metricList[binner.index]`).  `MafDriver.__init__`
deduplicates the constraint strings (`list(set(...))`); `MafDriver.run` then
issues one `getData` call per distinct constraint string, with the
deduplicated union of columns over the binners matching that constraint. -/

structure BinnerConfig where
  constraints : List String
  columnsNeeded : List String
  stackerCols : List String
  metricCols : List (List String)

/-- `self.constraints` of `MafDriver.__init__`: the distinct constraint
strings over all configured binners. -/
def driverConstraints (binList : List BinnerConfig) : List String :=
  ((binList.map (fun b => b.constraints)).flatten).dedup

/-- The `colnames` computed in `MafDriver.run` for one constraint: the
deduplicated union, over matching binners, of every metric column list, the
binner columns, and the stacker columns. -/
def groupColnames (binList : List BinnerConfig) (constr : String) : List String :=
  (((binList.filter (fun b => constr ∈ b.constraints)).map
      (fun b => b.metricCols.flatten ++ b.columnsNeeded ++ b.stackerCols)).flatten).dedup

/-- The sequence of `getData` fetches issued by `MafDriver.run` (for one opsim
run name): one per distinct constraint string, with that group's columns. -/
def driverFetches (binList : List BinnerConfig) : List (String × List String) :=
  (driverConstraints binList).map (fun c => (c, groupColnames binList c))

/-! ## Claim theorem: C2 -/

/-- C2: the driver issues exactly one fetch per distinct (syntactic)
constraint string appearing in any configured binner — in particular, bundles
sharing an identical predicate string cause one fetch, never two — and each
fetch requests exactly the union of the columns declared by every metric,
binner (slicer) and stacker in that predicate group. -/
theorem driver_one_fetch_per_predicate_with_union_columns :
    (∀ (binList : List BinnerConfig) (p : String),
        ((driverFetches binList).map Prod.fst).count p =
          if p ∈ (binList.map (fun b => b.constraints)).flatten then 1 else 0) ∧
    (∀ (binList : List BinnerConfig) (c col : String),
        col ∈ groupColnames binList c ↔
          ∃ b ∈ binList, c ∈ b.constraints ∧
            (col ∈ b.metricCols.flatten ∨ col ∈ b.columnsNeeded ∨
              col ∈ b.stackerCols)) := by
  constructor
  · intro binList p
    have hmap : (driverFetches binList).map Prod.fst = driverConstraints binList := by
      simp [driverFetches, Function.comp_def]
    rw [hmap, driverConstraints, List.count_dedup]
  · intro binList c col
    simp only [groupColnames, List.mem_dedup, List.mem_flatten, List.mem_map,
      List.mem_filter]
    constructor
    · rintro ⟨l, ⟨b, ⟨hb, hc⟩, rfl⟩, hcol⟩
      refine ⟨b, hb, by simpa using hc, ?_⟩
      simpa only [List.mem_append, List.mem_flatten, or_assoc] using hcol
    · rintro ⟨b, hb, hc, hcol⟩
      refine ⟨b.metricCols.flatten ++ b.columnsNeeded ++ b.stackerCols,
        ⟨b, ⟨hb, by simpa using hc⟩, rfl⟩, ?_⟩
      simpa only [List.mem_append, List.mem_flatten, or_assoc] using hcol

/-! ## `OneDSlicer.setupSlicer` bin construction (`oneDSlicer.py`)

All float arithmetic is modelled over exact rationals.  `np.arange(a, b, s)`
for positive step `s` produces `ceil((b - a) / s)` points `a + k*s`. -/

/-- `np.arange(start, stop, step)` over exact rationals (positive step). -/
def arange (start stop step : ℚ) : List ℚ :=
  (List.range (Int.toNat ⌈(stop - start) / step⌉)).map
    (fun k : ℕ => start + (k : ℚ) * step)

/-- `column.min()`; the empty-column default 0 is a modelling convenience only
(numpy raises there, and no claim exercises it). -/
def colMin : List ℚ → ℚ
  | [] => 0
  | a :: t => t.foldl min a

/-- `column.max()`; see `colMin` about the empty column. -/
def colMax : List ℚ → ℚ
  | [] => 0
  | a :: t => t.foldl max a

/-- The `bins` argument of `OneDSlicer.__init__`: an explicit edge sequence,
a bin count, or absent. -/
abbrev BinsArg := Option (List ℚ ⊕ ℕ)

/-- Outcome of the bin-construction part of `OneDSlicer.setupSlicer`; the
field `nudgedBinMax` records `self.binMax` right after the degenerate
(`binMin == binMax`) check, before any later adjustment. -/
structure OneDBinsResult where
  warnedDegenerate : Bool
  warnedBothSet : Bool
  nudgedBinMax : ℚ
  binMin : ℚ
  binMax : ℚ
  bins : List ℚ
  nslice : ℕ

/-- The bin-construction logic of `OneDSlicer.setupSlicer`.  `optBins` stands
for the result of `optimalBins(sliceCol, binMin, binMax)`.  Modelled from the
spec: `optimalBins` itself (a heuristic bin-count estimator from
`lsst.sims.maf.utils`) is not among the provided sources, so its result is a
parameter.  `nslice = len(bins) - 1` uses truncated subtraction (the Python
value can be -1 only when `bins` is empty, which no claim exercises). -/
def oneDSetupBins (sliceCol : List ℚ) (binMinIn binMaxIn binsizeIn : Option ℚ)
    (binsIn : BinsArg) (optBins : ℕ) : OneDBinsResult :=
  let binMin0 := binMinIn.getD (colMin sliceCol)
  let binMax0 := binMaxIn.getD (colMax sliceCol)
  let warned := decide (binMin0 = binMax0)
  let binMax1 := if binMin0 = binMax0 then
      (match binsizeIn with
       | some bs => binMax0 + 2 * bs
       | none => binMax0 + 1)
    else binMax0
  match binsizeIn with
  | some binsize =>
      let binMin2 := binMin0 - binsize
      let binMax2 := binMax1 + binsize
      let bins := arange binMin2 (binMax2 + binsize / 2) binsize
      { warnedDegenerate := warned, warnedBothSet := binsIn.isSome,
        nudgedBinMax := binMax1, binMin := binMin2, binMax := binMax2,
        bins := bins, nslice := bins.length - 1 }
  | none =>
      match binsIn with
      | some (Sum.inl seq) =>
          let bins := List.insertionSort (fun a b : ℚ => a ≤ b) seq
          { warnedDegenerate := warned, warnedBothSet := false,
            nudgedBinMax := binMax1, binMin := bins.headD 0,
            binMax := bins.getLastD 0, bins := bins, nslice := bins.length - 1 }
      | some (Sum.inr nb) =>
          let binsize := (binMax1 - binMin0) / (nb : ℚ)
          let bins := arange binMin0 (binMax1 + binsize / 2) binsize
          { warnedDegenerate := warned, warnedBothSet := false,
            nudgedBinMax := binMax1, binMin := binMin0, binMax := binMax1,
            bins := bins, nslice := bins.length - 1 }
      | none =>
          let binsize := (binMax1 - binMin0) / (optBins : ℚ)
          let bins := arange binMin0 (binMax1 + binsize / 2) binsize
          { warnedDegenerate := warned, warnedBothSet := false,
            nudgedBinMax := binMax1, binMin := binMin0, binMax := binMax1,
            bins := bins, nslice := bins.length - 1 }

lemma arange_length (start stop step : ℚ) :
    (arange start stop step).length = (⌈(stop - start) / step⌉).toNat := by
  unfold arange
  rw [List.length_map, List.length_range]

/-- Count of `np.arange(m, (m+1) + (1/n)/2, 1/n)` points: `n + 1` edges. -/
lemma arange_unit_length (m : ℚ) (n : ℕ) (hn : 1 ≤ n) :
    (arange m (m + 1 + (1 / (n : ℚ)) / 2) (1 / (n : ℚ))).length = n + 1 := by
  have hne : ((n : ℚ)) ≠ 0 := Nat.cast_ne_zero.mpr (by omega)
  rw [arange_length]
  have harg : (m + 1 + (1 / (n : ℚ)) / 2 - m) / (1 / (n : ℚ)) = (n : ℚ) + 1 / 2 := by
    field_simp
    ring
  rw [harg]
  have hceil : ⌈(n : ℚ) + 1 / 2⌉ = (n : ℤ) + 1 := by
    rw [Int.ceil_eq_iff]
    constructor
    · push_cast; linarith
    · push_cast; linarith
  rw [hceil]
  omega

/-! ## Claim theorems: C3 -/

/-- C3 counterexample: with `binMin = binMax = 5` and `binsize = 2`, the
degenerate check raises the upper edge to `9 = 5 + 2*binsize`, not to
`7 = 5 + binsize` as the claim (one bin-width) requires. -/
theorem oneDSlicer_degenerate_nudge_cex :
    (oneDSetupBins [] (some 5) (some 5) (some 2) none 1).nudgedBinMax = 9 ∧
    (5 : ℚ) + 2 ≠ 9 := by
  constructor
  · norm_num [oneDSetupBins]
  · norm_num

/-- C3 amended: when the effective bin minimum equals the bin maximum, the
bin-construction code of `OneDSlicer.setupSlicer` completes without raising
(it is total), emits the degenerate-data warning, nudges the upper edge up by
TWO bin-widths (`binMax + 2*binsize`) when a bin-width was given — by 1
otherwise — and produces at least one bin, provided the configuration is
sensible (positive bin-width, positive bin count, at least two explicit
edges). -/
theorem oneDSlicer_degenerate_setup (sliceCol : List ℚ)
    (binMinIn binMaxIn binsizeIn : Option ℚ) (binsIn : BinsArg) (optBins : ℕ)
    (hdeg : binMinIn.getD (colMin sliceCol) = binMaxIn.getD (colMax sliceCol))
    (hbs : ∀ bs, binsizeIn = some bs → 0 < bs)
    (hseq : ∀ s, binsIn = some (Sum.inl s) → 2 ≤ s.length)
    (hnb : ∀ nb, binsIn = some (Sum.inr nb) → 1 ≤ nb)
    (hopt : binsizeIn = none → binsIn = none → 1 ≤ optBins) :
    (oneDSetupBins sliceCol binMinIn binMaxIn binsizeIn binsIn optBins).warnedDegenerate
        = true ∧
    (oneDSetupBins sliceCol binMinIn binMaxIn binsizeIn binsIn optBins).nudgedBinMax =
      binMaxIn.getD (colMax sliceCol) +
        (match binsizeIn with | some bs => 2 * bs | none => 1) ∧
    1 ≤ (oneDSetupBins sliceCol binMinIn binMaxIn binsizeIn binsIn optBins).nslice := by
  cases binsizeIn with
  | some bs =>
      have hbs' : (0 : ℚ) < bs := hbs bs rfl
      have hbne : bs ≠ 0 := ne_of_gt hbs'
      refine ⟨?_, ?_, ?_⟩
      · simp [oneDSetupBins, hdeg]
      · simp [oneDSetupBins, hdeg]
      · simp only [oneDSetupBins, if_pos hdeg]
        rw [hdeg, arange_length]
        have harg : (binMaxIn.getD (colMax sliceCol) + 2 * bs + bs + bs / 2 -
            (binMaxIn.getD (colMax sliceCol) - bs)) / bs = 9 / 2 := by
          field_simp
          ring
        rw [harg]
        have hceil : ⌈(9 / 2 : ℚ)⌉ = 5 := by
          rw [Int.ceil_eq_iff]
          constructor <;> norm_num
        rw [hceil]
        omega
  | none =>
      cases binsIn with
      | some arg =>
          cases arg with
          | inl seq =>
              have hlen := hseq seq rfl
              refine ⟨by simp [oneDSetupBins, hdeg], by simp [oneDSetupBins, hdeg], ?_⟩
              simp only [oneDSetupBins, List.length_insertionSort]
              omega
          | inr nb =>
              have hnb' := hnb nb rfl
              refine ⟨by simp [oneDSetupBins, hdeg], by simp [oneDSetupBins, hdeg], ?_⟩
              simp only [oneDSetupBins, if_pos hdeg]
              rw [hdeg]
              have h1 : (binMaxIn.getD (colMax sliceCol) + 1 -
                  binMaxIn.getD (colMax sliceCol)) / (nb : ℚ) = 1 / (nb : ℚ) := by
                ring_nf
              rw [h1, arange_unit_length _ nb hnb']
              omega
      | none =>
          have hopt' := hopt rfl rfl
          refine ⟨by simp [oneDSetupBins, hdeg], by simp [oneDSetupBins, hdeg], ?_⟩
          simp only [oneDSetupBins, if_pos hdeg]
          rw [hdeg]
          have h1 : (binMaxIn.getD (colMax sliceCol) + 1 -
              binMaxIn.getD (colMax sliceCol)) / (optBins : ℚ) = 1 / (optBins : ℚ) := by
            ring_nf
          rw [h1, arange_unit_length _ optBins hopt']
          omega

/-- Witness for the amended C3 at `binMin = binMax = 5`, `binsize = 2`:
setup warns, sets the nudged upper edge to `5 + 2*2`, and produces at least
one bin. -/
theorem oneDSlicer_degenerate_setup_witness :
    (oneDSetupBins [] (some 5) (some 5) (some 2) none 1).warnedDegenerate = true ∧
    (oneDSetupBins [] (some 5) (some 5) (some 2) none 1).nudgedBinMax =
      (5 : ℚ) + 2 * 2 ∧
    1 ≤ (oneDSetupBins [] (some 5) (some 5) (some 2) none 1).nslice := by
  have h := oneDSlicer_degenerate_setup [] (some 5) (some 5) (some 2) none 1
      rfl (fun bs hbs => by cases hbs; norm_num)
      (fun s hs => by cases hs) (fun nb hnb => by cases hnb)
      (fun h1 _ => by cases h1)
  exact h

/-! ## Slicer persistence round trip (`BaseSlicer.writeData` / `readData`,
`OneDSlicer.__eq__`)

`writeData` saves `slicer_init` (for `OneDSlicer`: `sliceColName`,
`sliceColUnits`, `badval`), `slicerName`, `slicePoints` and `nslice`;
`readData` re-instantiates the named class with `slicer_init` (the remaining
constructor arguments default to `None`) and restores `nslice` and
`slicePoints`.  The npz container is modelled as faithful storage (its byte
layout is out of scope). -/

/-- Attribute state of a `OneDSlicer` instance relevant to persistence and
`__eq__`. -/
structure OneDSlicerState where
  slicerName : String
  sliceColName : String
  sliceColUnits : String
  badval : ℚ
  binsAttr : Option (List ℚ ⊕ ℕ)
  binMinAttr : Option ℚ
  binMaxAttr : Option ℚ
  binsizeAttr : Option ℚ
  nslice : Option ℕ
  spSid : Option (List ℕ)
  spBins : Option (List ℚ)

/-- `OneDSlicer.__init__` as invoked by `readData` with the saved
`slicer_init` keyword arguments; `bins`, `binMin`, `binMax`, `binsize`
default to `None`, `slicePoints` starts empty, `nslice` starts `None`. -/
def initOneDSlicer (sliceColName sliceColUnits : String) (badval : ℚ) :
    OneDSlicerState :=
  { slicerName := "OneDSlicer", sliceColName := sliceColName,
    sliceColUnits := sliceColUnits, badval := badval, binsAttr := none,
    binMinAttr := none, binMaxAttr := none, binsizeAttr := none,
    nslice := none, spSid := none, spBins := none }

/-- The npz payload of `BaseSlicer.writeData` that concerns the slicer. -/
structure SavedSlicerData where
  slicerName : String
  initSliceColName : String
  initSliceColUnits : String
  initBadval : ℚ
  slicerNSlice : Option ℕ
  spSid : Option (List ℕ)
  spBins : Option (List ℚ)

/-- `BaseSlicer.writeData` (slicer part) for a `OneDSlicer`. -/
def writeDataOneD (s : OneDSlicerState) : SavedSlicerData :=
  { slicerName := s.slicerName, initSliceColName := s.sliceColName,
    initSliceColUnits := s.sliceColUnits, initBadval := s.badval,
    slicerNSlice := s.nslice, spSid := s.spSid, spBins := s.spBins }

/-- `BaseSlicer.readData` (slicer part): look the saved class name up in the
slicer module (only `OneDSlicer` is part of this embedding), instantiate it
with the saved `slicer_init`, then restore `nslice` and `slicePoints`. -/
def readDataOneD (d : SavedSlicerData) : Option OneDSlicerState :=
  if d.slicerName = "OneDSlicer" then
    some { initOneDSlicer d.initSliceColName d.initSliceColUnits d.initBadval with
           nslice := d.slicerNSlice, spSid := d.spSid, spBins := d.spBins }
  else none

/-- Python truthiness of an optional numeric attribute (`None` and `0` are
falsy), as used by the fallback branch of `OneDSlicer.__eq__`. -/
def truthyQ : Option ℚ → Bool
  | none => false
  | some v => decide (v ≠ 0)

/-- Python truthiness of the `bins` attribute (`None`, the empty array and a
zero bin count are falsy). -/
def truthyBins : Option (List ℚ ⊕ ℕ) → Bool
  | none => false
  | some (Sum.inl l) => decide (l ≠ [])
  | some (Sum.inr n) => decide (n ≠ 0)

/-- `OneDSlicer.__eq__`: same concrete class, same slice column, then compare
`slicePoints['bins']` when both sides have it; otherwise fall back to the
`bins` / (`binsize`, `binMin`, `binMax`) attributes. -/
def oneDSlicerEq (self other : OneDSlicerState) : Bool :=
  if self.sliceColName = other.sliceColName then
    match self.spBins, other.spBins with
    | some sb, some ob => decide (ob = sb)
    | _, _ =>
        if truthyBins self.binsAttr && truthyBins other.binsAttr then
          decide (self.binsAttr = other.binsAttr)
        else if truthyQ self.binsizeAttr && truthyQ self.binMinAttr &&
            truthyQ self.binMaxAttr && truthyQ other.binsizeAttr &&
            truthyQ other.binMinAttr && truthyQ other.binMaxAttr then
          decide (self.binsizeAttr = other.binsizeAttr) &&
          decide (self.binMinAttr = other.binMinAttr) &&
          decide (self.binMaxAttr = other.binMaxAttr)
        else false
  else false

/-! ## Claim theorem: C4 -/

/-- C4: writing a set-up `OneDSlicer` to disk and reading it back yields a
slicer of the same concrete class (the saved class name resolves), with the
same point count (`nslice`), identical per-point metadata (`slicePoints`),
and for which `__eq__` against the original returns true (in both
directions). -/
theorem oneDSlicer_write_read_round_trip (s : OneDSlicerState)
    (hname : s.slicerName = "OneDSlicer") (hsetup : s.spBins.isSome = true) :
    ∃ r : OneDSlicerState, readDataOneD (writeDataOneD s) = some r ∧
      r.slicerName = "OneDSlicer" ∧
      r.nslice = s.nslice ∧
      r.spSid = s.spSid ∧ r.spBins = s.spBins ∧
      oneDSlicerEq r s = true ∧ oneDSlicerEq s r = true := by
  obtain ⟨b, hb⟩ := Option.isSome_iff_exists.mp hsetup
  refine ⟨{ initOneDSlicer s.sliceColName s.sliceColUnits s.badval with
            nslice := s.nslice, spSid := s.spSid, spBins := s.spBins },
      ?_, rfl, rfl, rfl, rfl, ?_, ?_⟩
  · simp [readDataOneD, writeDataOneD, hname]
  · simp [oneDSlicerEq, initOneDSlicer, hb]
  · simp [oneDSlicerEq, initOneDSlicer, hb]

/-- Witness for C4: a concrete set-up `OneDSlicer` (column `expMJD`, three
bin edges, two slice points) round-trips through write/read. -/
theorem oneDSlicer_write_read_round_trip_witness :
    ∃ r : OneDSlicerState,
      readDataOneD (writeDataOneD
        { slicerName := "OneDSlicer", sliceColName := "expMJD",
          sliceColUnits := "days", badval := -666,
          binsAttr := some (Sum.inl [0, 1, 2]), binMinAttr := some 0,
          binMaxAttr := some 2, binsizeAttr := some 1, nslice := some 2,
          spSid := some [0, 1], spBins := some [0, 1, 2] }) = some r ∧
      r.slicerName = "OneDSlicer" ∧
      r.nslice = some 2 ∧
      r.spSid = some [0, 1] ∧ r.spBins = some [0, 1, 2] ∧
      oneDSlicerEq r
        { slicerName := "OneDSlicer", sliceColName := "expMJD",
          sliceColUnits := "days", badval := -666,
          binsAttr := some (Sum.inl [0, 1, 2]), binMinAttr := some 0,
          binMaxAttr := some 2, binsizeAttr := some 1, nslice := some 2,
          spSid := some [0, 1], spBins := some [0, 1, 2] } = true ∧
      oneDSlicerEq
        { slicerName := "OneDSlicer", sliceColName := "expMJD",
          sliceColUnits := "days", badval := -666,
          binsAttr := some (Sum.inl [0, 1, 2]), binMinAttr := some 0,
          binMaxAttr := some 2, binsizeAttr := some 1, nslice := some 2,
          spSid := some [0, 1], spBins := some [0, 1, 2] } r = true := by
  exact oneDSlicer_write_read_round_trip _ rfl rfl

/-! ## `OneDSlicer` data slicing (`setupSlicer` tail + `_sliceSimData`)

`setupSlicer` ends with `simIdxs = np.argsort(col)`,
`left = searchsorted(np.sort(col), bins[:-1], 'left') ++ [len(simIdxs)]`, and
installs `_sliceSimData(i) = simIdxs[left[i]:left[i+1]]`.  `np.argsort` is
modelled as sorting the index range by column value (any correct sort yields
the same slice sets, since the slice boundaries are value counts);
`np.searchsorted(a, x, 'left')` on sorted `a` is the number of entries
strictly below `x`. -/

/-- Key order used by `np.argsort(simData[sliceColName])`: compare positions
by their column value. -/
def simSortKeyLe (data : List ℚ) (a b : ℕ) : Prop :=
  data.getD a 0 ≤ data.getD b 0

instance (data : List ℚ) : DecidableRel (simSortKeyLe data) := fun a b =>
  inferInstanceAs (Decidable (data.getD a 0 ≤ data.getD b 0))

instance (data : List ℚ) : IsTotal ℕ (simSortKeyLe data) :=
  ⟨fun _ _ => le_total _ _⟩

instance (data : List ℚ) : IsTrans ℕ (simSortKeyLe data) :=
  ⟨fun _ _ _ hab hbc => le_trans hab hbc⟩

/-- `np.argsort(data)`: the index range sorted by column value. -/
def argsort (data : List ℚ) : List ℕ :=
  List.insertionSort (simSortKeyLe data) (List.range data.length)

/-- `np.searchsorted(sortedArr, x, 'left')`: number of entries below `x`. -/
def searchsortedLeft (sortedArr : List ℚ) (x : ℚ) : ℕ :=
  sortedArr.countP (fun v => decide (v < x))

/-- The slicing state installed by the tail of `OneDSlicer.setupSlicer`. -/
structure OneDSliceState where
  bins : List ℚ
  nslice : ℕ
  simIdxs : List ℕ
  left : List ℕ

/-- The slicing part of `OneDSlicer.setupSlicer` for already-determined bin
edges `binsIn` (the explicit-`bins` path: `self.bins = np.sort(self.bins)`,
`self.nslice = len(self.bins) - 1`, then the argsort/searchsorted setup). -/
def oneDSetupSlicing (data binsIn : List ℚ) : OneDSliceState :=
  let bins := List.insertionSort (fun a b : ℚ => a ≤ b) binsIn
  let simIdxs := argsort data
  let simFieldsSorted := List.insertionSort (fun a b : ℚ => a ≤ b) data
  let left := bins.dropLast.map (searchsortedLeft simFieldsSorted) ++ [data.length]
  { bins := bins, nslice := bins.length - 1, simIdxs := simIdxs, left := left }

/-- The installed `_sliceSimData` closure:
`simIdxs[left[islice]:left[islice+1]]` (a Python slice). -/
def oneDSliceSimData (s : OneDSliceState) (islice : ℕ) : List ℕ :=
  (s.simIdxs.drop (s.left.getD islice 0)).take
    (s.left.getD (islice + 1) 0 - s.left.getD islice 0)

lemma map_getD_range (l : List ℚ) :
    (List.range l.length).map (fun i : ℕ => l.getD i 0) = l := by
  apply List.ext_getElem
  · simp
  · intro i h1 h2
    simp only [List.getElem_map, List.getElem_range]
    rw [List.getD_eq_getElem _ _ h2]

lemma argsort_length (data : List ℚ) : (argsort data).length = data.length := by
  rw [argsort, List.length_insertionSort, List.length_range]

lemma argsort_mem_iff (data : List ℚ) (j : ℕ) :
    j ∈ argsort data ↔ j < data.length := by
  rw [argsort, List.mem_insertionSort, List.mem_range]

/-- Counting positions with value below `x` along the argsort order equals the
searchsorted index on the sorted column. -/
lemma countP_argsort (data : List ℚ) (x : ℚ) :
    (argsort data).countP (fun t => decide (data.getD t 0 < x)) =
      searchsortedLeft (List.insertionSort (fun a b : ℚ => a ≤ b) data) x := by
  have h1 : (argsort data).countP (fun t => decide (data.getD t 0 < x)) =
      (List.range data.length).countP (fun t => decide (data.getD t 0 < x)) :=
    (List.perm_insertionSort (simSortKeyLe data) (List.range data.length)).countP_eq _
  have h2 : searchsortedLeft (List.insertionSort (fun a b : ℚ => a ≤ b) data) x =
      data.countP (fun v => decide (v < x)) :=
    (List.perm_insertionSort (fun a b : ℚ => a ≤ b) data).countP_eq _
  have h3 : data.countP (fun v => decide (v < x)) =
      (List.range data.length).countP (fun t => decide (data.getD t 0 < x)) := by
    conv_lhs => rw [← map_getD_range data]
    rw [List.countP_map]
    rfl
  rw [h1, h2, h3]

/-- In a list sorted by `r`, a predicate that is downward closed along `r`
holds exactly on the prefix of length `countP`. -/
lemma sorted_countP_iff {r : ℕ → ℕ → Prop} {P : ℕ → Bool}
    (hmono : ∀ a b : ℕ, r a b → P b = true → P a = true) :
    ∀ (l : List ℕ), l.Sorted r → ∀ (k : ℕ) (hk : k < l.length),
      (P (l.get ⟨k, hk⟩) = true ↔ k < l.countP P) := by
  intro l
  induction l with
  | nil => intro _ k hk; simp at hk
  | cons a t ih =>
      intro hs k hk
      rw [List.sorted_cons] at hs
      obtain ⟨ha, ht⟩ := hs
      by_cases hPa : P a = true
      · rw [List.countP_cons_of_pos _ _ hPa]
        cases k with
        | zero => simpa [List.get_eq_getElem, hPa] using Nat.succ_pos _
        | succ k =>
            have hk' : k < t.length := by simpa using hk
            have hih := ih ht k hk'
            simp only [List.get_eq_getElem] at hih ⊢
            simp only [List.getElem_cons_succ]
            rw [hih]
            omega
      · rw [List.countP_cons_of_neg _ _ hPa]
        have hzero : t.countP P = 0 := by
          rw [List.countP_eq_zero]
          intro b hb hPb
          exact hPa (hmono a b (ha b hb) hPb)
        cases k with
        | zero => simp [List.get_eq_getElem, hPa, hzero]
        | succ k =>
            have hk' : k < t.length := by simpa using hk
            have hbt : t.get ⟨k, hk'⟩ ∈ t := List.get_mem t k hk'
            have hnP : ¬ P (t.get ⟨k, hk'⟩) = true :=
              List.countP_eq_zero.mp hzero _ hbt
            simp only [List.get_eq_getElem] at hnP ⊢
            simp [List.getElem_cons_succ, hnP, hzero]

/-- Membership in the Python slice `l[a:a+m]` (`drop` then `take`). -/
lemma mem_pyslice_iff (l : List ℕ) (a m j : ℕ) :
    j ∈ (l.drop a).take m ↔
      ∃ (k : ℕ) (hk : k < l.length), a ≤ k ∧ k < a + m ∧ l.get ⟨k, hk⟩ = j := by
  rw [List.mem_iff_getElem]
  constructor
  · rintro ⟨i, hi, hget⟩
    have hi' : i < m ∧ i < l.length - a := by
      rw [List.length_take, List.length_drop] at hi
      omega
    refine ⟨a + i, by omega, by omega, by omega, ?_⟩
    rw [List.getElem_take, List.getElem_drop] at hget
    rw [List.get_eq_getElem]
    exact hget
  · rintro ⟨k, hk, hak, hkm, hget⟩
    have hlen : k - a < ((l.drop a).take m).length := by
      rw [List.length_take, List.length_drop]
      omega
    refine ⟨k - a, hlen, ?_⟩
    have hstep : ((l.drop a).take m).get ⟨k - a, hlen⟩ = l.get ⟨k, hk⟩ := by
      simp only [List.get_eq_getElem]
      rw [List.getElem_take, List.getElem_drop]
      congr 1
      omega
    simp only [List.get_eq_getElem] at hstep hget
    rw [hstep]
    exact hget

lemma oneDSetup_bins_sorted (data binsIn : List ℚ) :
    (oneDSetupSlicing data binsIn).bins.Sorted (fun a b : ℚ => a ≤ b) :=
  List.sorted_insertionSort _ binsIn

lemma oneDSetup_left_getD_of_lt (data binsIn : List ℚ) {i : ℕ}
    (hi : i < (oneDSetupSlicing data binsIn).nslice) :
    (oneDSetupSlicing data binsIn).left.getD i 0 =
      searchsortedLeft (List.insertionSort (fun a b : ℚ => a ≤ b) data)
        ((oneDSetupSlicing data binsIn).bins.getD i 0) := by
  set bins := (oneDSetupSlicing data binsIn).bins with hbins
  have hN : (oneDSetupSlicing data binsIn).nslice = bins.length - 1 := rfl
  have hmaplen : (bins.dropLast.map
      (searchsortedLeft (List.insertionSort (fun a b : ℚ => a ≤ b) data))).length =
      bins.length - 1 := by
    rw [List.length_map, List.length_dropLast]
  have hidl : i < bins.dropLast.length := by
    rw [List.length_dropLast]; omega
  have hibins : i < bins.length := by
    rw [List.length_dropLast] at hidl; omega
  have hleft : (oneDSetupSlicing data binsIn).left =
      bins.dropLast.map
        (searchsortedLeft (List.insertionSort (fun a b : ℚ => a ≤ b) data)) ++
      [data.length] := rfl
  rw [hleft, List.getD_append _ _ _ _ (by rw [hmaplen]; omega),
      List.getD_eq_getElem _ _ (by rw [hmaplen]; omega), List.getElem_map,
      List.getElem_dropLast, List.getD_eq_getElem _ _ hibins]

lemma oneDSetup_left_getD_last (data binsIn : List ℚ) :
    (oneDSetupSlicing data binsIn).left.getD
      (oneDSetupSlicing data binsIn).nslice 0 = data.length := by
  set bins := (oneDSetupSlicing data binsIn).bins with hbins
  have hmaplen : (bins.dropLast.map
      (searchsortedLeft (List.insertionSort (fun a b : ℚ => a ≤ b) data))).length =
      bins.length - 1 := by
    rw [List.length_map, List.length_dropLast]
  have hleft : (oneDSetupSlicing data binsIn).left =
      bins.dropLast.map
        (searchsortedLeft (List.insertionSort (fun a b : ℚ => a ≤ b) data)) ++
      [data.length] := rfl
  have hN : (oneDSetupSlicing data binsIn).nslice = bins.length - 1 := rfl
  rw [hleft, hN, List.getD_append_right _ _ _ _ (by rw [hmaplen]), hmaplen]
  simp

lemma oneDSetup_left_bounds (data binsIn : List ℚ) {i : ℕ}
    (hi : i < (oneDSetupSlicing data binsIn).nslice) :
    (oneDSetupSlicing data binsIn).left.getD i 0 ≤
      (oneDSetupSlicing data binsIn).left.getD (i + 1) 0 ∧
    (oneDSetupSlicing data binsIn).left.getD (i + 1) 0 ≤ data.length := by
  have hsortlen : (List.insertionSort (fun a b : ℚ => a ≤ b) data).length =
      data.length := List.length_insertionSort _ _
  have hssle : ∀ x : ℚ,
      searchsortedLeft (List.insertionSort (fun a b : ℚ => a ≤ b) data) x ≤
        data.length := by
    intro x
    calc searchsortedLeft (List.insertionSort (fun a b : ℚ => a ≤ b) data) x
        ≤ (List.insertionSort (fun a b : ℚ => a ≤ b) data).length :=
          List.countP_le_length _
      _ = data.length := hsortlen
  have hN : (oneDSetupSlicing data binsIn).nslice =
      (oneDSetupSlicing data binsIn).bins.length - 1 := rfl
  by_cases hlast : i + 1 < (oneDSetupSlicing data binsIn).nslice
  · rw [oneDSetup_left_getD_of_lt data binsIn hi,
        oneDSetup_left_getD_of_lt data binsIn hlast]
    have hi1 : i + 1 < (oneDSetupSlicing data binsIn).bins.length := by omega
    have hmono : (oneDSetupSlicing data binsIn).bins.getD i 0 ≤
        (oneDSetupSlicing data binsIn).bins.getD (i + 1) 0 := by
      rw [List.getD_eq_getElem _ _ (by omega), List.getD_eq_getElem _ _ hi1]
      have := (oneDSetup_bins_sorted data binsIn).rel_get_of_lt
        (a := ⟨i, by omega⟩) (b := ⟨i + 1, hi1⟩) (by simp [Fin.lt_def])
      simpa using this
    refine ⟨List.countP_mono_left ?_, hssle _⟩
    intro v _ hv
    simp only [decide_eq_true_eq] at hv ⊢
    exact lt_of_lt_of_le hv hmono
  · have hi1N : i + 1 = (oneDSetupSlicing data binsIn).nslice := by omega
    rw [hi1N, oneDSetup_left_getD_last data binsIn,
        oneDSetup_left_getD_of_lt data binsIn hi]
    exact ⟨hssle _, le_refl _⟩

/-! ## Claim theorems: C1 -/

/-- C1 counterexample: with bin edges `[0, 1, 2]` and column values
`[0, 1, 3]`, `resolve(1)` (the last bin) contains row 2 although its value 3
exceeds the final edge 2 — the claimed characterisation
`edges[i] <= v < edges[i+1]` (closed at the final edge) is violated. -/
theorem oneDSlicer_resolve_last_bin_cex :
    2 ∈ oneDSliceSimData (oneDSetupSlicing [0, 1, 3] [0, 1, 2]) 1 ∧
    ¬ (([0, 1, 3] : List ℚ).getD 2 0 ≤
        (oneDSetupSlicing [0, 1, 3] [0, 1, 2]).bins.getD 2 0) := by
  constructor
  · decide
  · decide

/-- C1 amended: after setup, `resolve(i)` returns exactly the rows whose
column value `v` satisfies `edges[i] <= v`, and additionally `v < edges[i+1]`
for every bin except the last — the last bin is unbounded above, so it
contains the final edge and any values beyond it.  The result is computed by
the one-time argsort plus a per-edge binary search, never a per-bin scan. -/
theorem oneDSlicer_resolve_characterization (data binsIn : List ℚ) (i j : ℕ)
    (hi : i < (oneDSetupSlicing data binsIn).nslice) :
    j ∈ oneDSliceSimData (oneDSetupSlicing data binsIn) i ↔
      (j < data.length ∧
       (oneDSetupSlicing data binsIn).bins.getD i 0 ≤ data.getD j 0 ∧
       (i + 1 < (oneDSetupSlicing data binsIn).nslice →
         data.getD j 0 < (oneDSetupSlicing data binsIn).bins.getD (i + 1) 0)) := by
  obtain ⟨hab, hbn⟩ := oneDSetup_left_bounds data binsIn hi
  have hplen : (argsort data).length = data.length := argsort_length data
  have hsorted : (argsort data).Sorted (simSortKeyLe data) :=
    List.sorted_insertionSort _ _
  have hcount : ∀ (x : ℚ) (k : ℕ) (hk : k < (argsort data).length),
      (decide (data.getD ((argsort data).get ⟨k, hk⟩) 0 < x) = true ↔
        k < searchsortedLeft (List.insertionSort (fun a b : ℚ => a ≤ b) data) x) := by
    intro x k hk
    have hmono : ∀ a b : ℕ, simSortKeyLe data a b →
        decide (data.getD b 0 < x) = true → decide (data.getD a 0 < x) = true := by
      intro a b hab' hb
      simp only [decide_eq_true_eq] at hb ⊢
      exact lt_of_le_of_lt hab' hb
    rw [sorted_countP_iff hmono (argsort data) hsorted k hk, countP_argsort]
  have hperm : (oneDSetupSlicing data binsIn).simIdxs = argsort data := rfl
  rw [oneDSliceSimData, hperm, mem_pyslice_iff,
      show (oneDSetupSlicing data binsIn).left.getD i 0 +
        ((oneDSetupSlicing data binsIn).left.getD (i + 1) 0 -
          (oneDSetupSlicing data binsIn).left.getD i 0) =
        (oneDSetupSlicing data binsIn).left.getD (i + 1) 0 from by omega]
  constructor
  · rintro ⟨k, hk, hak, hkb, hget⟩
    have hjn : j < data.length := by
      rw [← hget]
      exact (argsort_mem_iff data _).mp (List.get_mem _ _ _)
    refine ⟨hjn, ?_, ?_⟩
    · by_contra hlow
      push_neg at hlow
      have hdec : decide (data.getD ((argsort data).get ⟨k, hk⟩) 0 <
          (oneDSetupSlicing data binsIn).bins.getD i 0) = true := by
        simp only [decide_eq_true_eq]
        rw [hget]
        exact hlow
      rw [hcount _ k hk] at hdec
      rw [oneDSetup_left_getD_of_lt data binsIn hi] at hak
      omega
    · intro hlast
      have hkb' : k < searchsortedLeft
          (List.insertionSort (fun a b : ℚ => a ≤ b) data)
          ((oneDSetupSlicing data binsIn).bins.getD (i + 1) 0) := by
        rw [← oneDSetup_left_getD_of_lt data binsIn hlast]
        exact hkb
      have hdec := (hcount _ k hk).mpr hkb'
      rw [hget] at hdec
      simpa using hdec
  · rintro ⟨hjn, hlow, hup⟩
    obtain ⟨k, hk, hget0⟩ :=
      List.mem_iff_getElem.mp ((argsort_mem_iff data j).mpr hjn)
    have hget : (argsort data).get ⟨k, hk⟩ = j := by
      simpa [List.get_eq_getElem] using hget0
    refine ⟨k, hk, ?_, ?_, hget⟩
    · rw [oneDSetup_left_getD_of_lt data binsIn hi]
      by_contra hka
      push_neg at hka
      have hdec := (hcount _ k hk).mpr hka
      rw [hget] at hdec
      simp only [decide_eq_true_eq] at hdec
      exact absurd hlow (not_le.mpr hdec)
    · by_cases hlast : i + 1 < (oneDSetupSlicing data binsIn).nslice
      · rw [oneDSetup_left_getD_of_lt data binsIn hlast]
        apply (hcount _ k hk).mp
        simp only [decide_eq_true_eq]
        rw [hget]
        exact hup hlast
      · have hi1N : i + 1 = (oneDSetupSlicing data binsIn).nslice := by omega
        rw [hi1N, oneDSetup_left_getD_last data binsIn]
        rw [hplen] at hk
        exact hk

/-- Witness for the amended C1 on the end-to-end scenario data
`[0, 1, 3]` with edges `[0, 1, 2]`: row 1 (value 1) lies in bin 1 because
`1 <= 1` and the last-bin upper bound is vacuous, and row 0 (value 0) is not
in bin 1 because `1 <= 0` fails. -/
theorem oneDSlicer_resolve_characterization_witness :
    (1 ∈ oneDSliceSimData (oneDSetupSlicing [0, 1, 3] [0, 1, 2]) 1 ↔
      (1 < ([0, 1, 3] : List ℚ).length ∧
       (oneDSetupSlicing [0, 1, 3] [0, 1, 2]).bins.getD 1 0 ≤
         ([0, 1, 3] : List ℚ).getD 1 0 ∧
       (1 + 1 < (oneDSetupSlicing [0, 1, 3] [0, 1, 2]).nslice →
         ([0, 1, 3] : List ℚ).getD 1 0 <
           (oneDSetupSlicing [0, 1, 3] [0, 1, 2]).bins.getD (1 + 1) 0))) ∧
    (0 ∈ oneDSliceSimData (oneDSetupSlicing [0, 1, 3] [0, 1, 2]) 1 ↔
      (0 < ([0, 1, 3] : List ℚ).length ∧
       (oneDSetupSlicing [0, 1, 3] [0, 1, 2]).bins.getD 1 0 ≤
         ([0, 1, 3] : List ℚ).getD 0 0 ∧
       (1 + 1 < (oneDSetupSlicing [0, 1, 3] [0, 1, 2]).nslice →
         ([0, 1, 3] : List ℚ).getD 0 0 <
           (oneDSetupSlicing [0, 1, 3] [0, 1, 2]).bins.getD (1 + 1) 0))) := by
  constructor
  · exact oneDSlicer_resolve_characterization [0, 1, 3] [0, 1, 2] 1 1 (by decide)
  · exact oneDSlicer_resolve_characterization [0, 1, 3] [0, 1, 2] 1 0 (by decide)

end SimsMaf
